import Mathlib

set_option maxHeartbeats 1000000

/-!
Shallow embedding of the dual-resident buffer type `CUDAStream<T>` from
`src/platforms/cuda/src/kernels/cudatypes.h` (OpenMM CUDA platform), together
with proofs about its allocation, transfer and reshape (`Collapse`) behaviour.

Modelling conventions:
* C `unsigned int` arithmetic is modelled on `Nat` with an explicit reduction
  `u32` (mod 2^32) at each operation that the source performs on
  `unsigned int` values and that can overflow (`length + 0xf`, the products
  `_stride * _subStreams` and `_length * _subStreams`).
* The host and device storages are modelled as total functions `Nat → T`
  (contents at each element index of the allocation), together with the
  allocated element counts (`sysCapacity`, `devCapacity`).
* The per-sub-stream pointer tables `_pSysStream` / `_pDevStream` are modelled
  as offset functions `sysOff` / `devOff` from the storage base, so
  `_pSysStream[j][i]` reads `sys (sysOff j + i)`.
* `cudaMalloc` / `cudaMemcpy` are modelled at element granularity; the
  `sizeof(T)` factor of the byte counts is abstracted away.
* On a CUDA allocation failure the source's RTERROR handler prints and calls
  `exit(-1)` without releasing the host-side `new` allocations; this is
  modelled by the `ConstructResult.exited` outcome carrying the exit code and
  whether the host allocation is still outstanding.
* The scratch array `pTemp` of `Collapse` is allocated with `new T[...]`; its
  initial (indeterminate) contents are modelled by `default`.
-/

/-- Unsigned 32-bit reduction: C `unsigned int` arithmetic wraps modulo 2^32. -/
def u32 (n : Nat) : Nat := n % 4294967296

/-- The stride computed by every `CUDAStream` constructor:
`_stride((length + 0xf) & 0xfffffff0)` (cudatypes.h lines 96-117). -/
def strideOf (length : Nat) : Nat := u32 (length + 0xf) &&& 0xfffffff0

/-- State of a `CUDAStream<T>` (cudatypes.h lines 69-91): the scalar fields
`_length`, `_subStreams`, `_stride`, the two storages (`_pSysData`,
`_pDevData`) with their allocated element counts, the sub-stream pointer
tables as base offsets, and the diagnostic `_name`. -/
structure CUDAStream (T : Type) where
  length : Nat
  subStreams : Nat
  stride : Nat
  sysOff : Nat → Nat
  devOff : Nat → Nat
  sys : Nat → T
  dev : Nat → T
  sysCapacity : Nat
  devCapacity : Nat
  name : String

/-- The fully-allocated stream produced by the constructor plus
`CUDAStream<T>::Allocate` on the success path (cudatypes.h lines 96-141):
`_stride = (length + 0xf) & 0xfffffff0`, host storage of
`_subStreams * _stride` elements (`new T[_subStreams * _stride]`), device
storage of `_stride * _subStreams` elements (`cudaMalloc`), and the
sub-stream tables `_pSysStream[i] = _pSysData + i * _stride`,
`_pDevStream[i] = _pDevData + i * _stride`. The parameter `d` stands for the
initial (indeterminate) contents of the fresh allocations. -/
def allocateCUDAStream {T : Type} (d : T) (length subStreams : Nat) (name : String) :
    CUDAStream T :=
  { length := length
    subStreams := subStreams
    stride := strideOf length
    sysOff := fun i => i * strideOf length
    devOff := fun i => i * strideOf length
    sys := fun _ => d
    dev := fun _ => d
    sysCapacity := u32 (subStreams * strideOf length)
    devCapacity := u32 (strideOf length * subStreams)
    name := name }

/-- Outcome of running the constructor with a device allocator that may fail:
either the allocated stream, or a process exit (`exit(-1)` from the RTERROR
handler, cudatypes.h lines 46-50) recording the exit code and whether the
already-performed host allocations are still outstanding. -/
inductive ConstructResult (T : Type) where
  | ok : CUDAStream T → ConstructResult T
  | exited : Int → Bool → ConstructResult T

/-- `CUDAStream<T>::CUDAStream(length, subStreams, name)` followed by
`Allocate` (cudatypes.h lines 107-141), parametrised by whether the
`cudaMalloc` device allocation succeeds.  On failure the source prints and
calls `exit(-1)`; the host allocations (`_pSysStream`, `_pDevStream`,
`_pSysData`), performed before the device call, are not released. -/
def constructCUDAStream {T : Type} (d : T) (length subStreams : Nat) (name : String)
    (devAllocOk : Bool) : ConstructResult T :=
  if devAllocOk then ConstructResult.ok (allocateCUDAStream d length subStreams name)
  else ConstructResult.exited (-1) true

/-- Whether the construction outcome terminated the process. -/
def ConstructResult.processExited {T : Type} : ConstructResult T → Prop
  | .ok _ => False
  | .exited _ _ => True

/-- Whether a host allocation is still outstanding after the outcome (on the
failure path: the leaked `new` allocations; on success: the live storage). -/
def ConstructResult.hostAllocOutstanding {T : Type} : ConstructResult T → Prop
  | .ok _ => True
  | .exited _ leaked => leaked = true

/-- `CUDAStream<T>::Upload` (cudatypes.h lines 157-163): one contiguous
host-to-device copy of `_stride * _subStreams` elements.  The failure path of
the source aborts the process; the model covers the successful transfer. -/
def CUDAStream.Upload {T : Type} (s : CUDAStream T) : CUDAStream T :=
  { s with dev := fun m => if m < u32 (s.stride * s.subStreams) then s.sys m else s.dev m }

/-- `CUDAStream<T>::Download` (cudatypes.h lines 165-171): one contiguous
device-to-host copy of `_stride * _subStreams` elements. -/
def CUDAStream.Download {T : Type} (s : CUDAStream T) : CUDAStream T :=
  { s with sys := fun m => if m < u32 (s.stride * s.subStreams) then s.dev m else s.sys m }

/-- `CUDAStream<T>::Collapse(newstreams, interleave)` (cudatypes.h lines
173-213).  Phase 1 walks `i < _length`, `j < _subStreams` writing
`_pSysStream[j][i]` to `pTemp[stream * newstride + pos]` while cycling
`stream` modulo `newstreams` and advancing `pos` on each wrap; then the
sub-stream tables are remapped to the new stride; phase 2 copies
`pTemp[j * newstride + i]` back to `_pSysStream[j][i]` for `i < newlength`,
`j < newstreams`; finally `_stride`, `_length`, `_subStreams` are updated.
The `interleave` parameter is accepted but never read by the source body. -/
def CUDAStream.Collapse {T : Type} [Inhabited T] (s : CUDAStream T)
    (newstreams : Nat) (interleave : Nat) : CUDAStream T :=
  let newstride := u32 (s.stride * s.subStreams) / newstreams
  let newlength := u32 (s.length * s.subStreams) / newstreams
  let phase1 :=
    (List.range s.length).foldl (fun st i =>
      (List.range s.subStreams).foldl (fun (st : Nat × Nat × (Nat → T)) j =>
        let pTemp := fun m =>
          if m = st.1 * newstride + st.2.1 then s.sys (s.sysOff j + i) else st.2.2 m
        let stream := st.1 + 1
        if stream = newstreams then (0, st.2.1 + 1, pTemp) else (stream, st.2.1, pTemp)) st)
      ((0 : Nat), (0 : Nat), (fun _ => (default : T)))
  let pTemp := phase1.2.2
  let newSysOff := fun i => if i < newstreams then i * newstride else s.sysOff i
  let newDevOff := fun i => if i < newstreams then i * newstride else s.devOff i
  let newSys :=
    (List.range newlength).foldl (fun g i =>
      (List.range newstreams).foldl (fun (g : Nat → T) j =>
        fun m => if m = newSysOff j + i then pTemp (j * newstride + i) else g m) g)
      s.sys
  { s with stride := newstride, length := newlength, subStreams := newstreams,
           sysOff := newSysOff, devOff := newDevOff, sys := newSys }

/-- The per-sub-stream logical contents of a stream: for each sub-stream
`j < subStreams` in order, the elements `_pSysStream[j][i]` for
`i < length` in order. -/
def readout {T : Type} (s : CUDAStream T) : List T :=
  (List.range s.subStreams).flatMap fun j =>
    (List.range s.length).map fun i => s.sys (s.sysOff j + i)

/-- Well-formedness of a stream state as established by construction and
preserved by the operations: the logical length fits in the padded stride,
and the total allocated extent fits in an `unsigned int`. -/
def WF {T : Type} (s : CUDAStream T) : Prop :=
  s.length ≤ s.stride ∧ s.stride * s.subStreams < 4294967296

/-- The sub-stream view invariant: view `i` points at base offset
`i * stride` in both storages, for every live sub-stream index. -/
def ViewsOK {T : Type} (s : CUDAStream T) : Prop :=
  ∀ i, i < s.subStreams → s.sysOff i = i * s.stride ∧ s.devOff i = i * s.stride

/-- The flat scratch-buffer indices written by phase 1 of `Collapse`
(`pTemp[stream * newstride + pos] = ...`), in write order: the same loop as
in `CUDAStream.Collapse` with the written index recorded instead of the
written value. -/
def collapseTempWrites {T : Type} (s : CUDAStream T) (newstreams : Nat) : List Nat :=
  let newstride := u32 (s.stride * s.subStreams) / newstreams
  ((List.range s.length).foldl (fun st i =>
    (List.range s.subStreams).foldl (fun (st : Nat × Nat × List Nat) j =>
      let w := st.2.2 ++ [st.1 * newstride + st.2.1]
      let stream := st.1 + 1
      if stream = newstreams then (0, st.2.1 + 1, w) else (stream, st.2.1, w)) st)
    ((0 : Nat), (0 : Nat), ([] : List Nat))).2.2

/-- The flat host-storage indices written by phase 2 of `Collapse`
(`_pSysStream[j][i] = pTemp[...]` for `i < newlength`, `j < newstreams`,
after the sub-stream tables are remapped), in write order. -/
def collapseHostWrites {T : Type} (s : CUDAStream T) (newstreams : Nat) : List Nat :=
  let newstride := u32 (s.stride * s.subStreams) / newstreams
  let newlength := u32 (s.length * s.subStreams) / newstreams
  let newSysOff := fun i => if i < newstreams then i * newstride else s.sysOff i
  (List.range newlength).flatMap fun i =>
    (List.range newstreams).map fun j => newSysOff j + i

/-- Generic replay of the phase-1 loop state: starting from write counter `c`
and accumulator `a`, perform `n` more writes, where the write with counter
`c'` happens at scratch slot `(c' % ns, c' / ns)` (stream, position) and
reads source element `(i, j) = (c' / ss, c' % ss)`. -/
def seqA {A : Type} (ns ss : Nat) (upd : A → Nat → Nat → Nat → Nat → A) :
    Nat → Nat → A → A
  | _, 0, a => a
  | c, n + 1, a => seqA ns ss upd (c + 1) n (upd a (c % ns) (c / ns) (c / ss) (c % ss))

/-- The `newstride` computed by `Collapse`:
`newstride = _stride * _subStreams / newstreams` in `unsigned int` arithmetic. -/
def newstrideOf {T : Type} (s : CUDAStream T) (ns : Nat) : Nat :=
  u32 (s.stride * s.subStreams) / ns

/-- The `newlength` computed by `Collapse`:
`newlength = _length * _subStreams / newstreams` in `unsigned int` arithmetic. -/
def newlengthOf {T : Type} (s : CUDAStream T) (ns : Nat) : Nat :=
  u32 (s.length * s.subStreams) / ns

/-- The state (`stream`, `pos`, `pTemp`) after phase 1 of `Collapse`:
the double loop copying `_pSysStream[j][i]` into
`pTemp[stream * newstride + pos]`. -/
def collapsePhase1 {T : Type} [Inhabited T] (s : CUDAStream T) (ns : Nat) :
    Nat × Nat × (Nat → T) :=
  (List.range s.length).foldl (fun st i =>
    (List.range s.subStreams).foldl (fun (st : Nat × Nat × (Nat → T)) j =>
      let pTemp := fun m =>
        if m = st.1 * newstrideOf s ns + st.2.1 then s.sys (s.sysOff j + i) else st.2.2 m
      let stream := st.1 + 1
      if stream = ns then (0, st.2.1 + 1, pTemp) else (stream, st.2.1, pTemp)) st)
    ((0 : Nat), (0 : Nat), (fun _ => (default : T)))

/-- The worked example of the spec: element type instantiated at `Nat`
(the reshape is type-agnostic data movement), `length = 20`,
`subStreams = 2`, sub-stream 0 populated with `0..19` (flat indices
`0..19`), sub-stream 1 with `100..119` (flat indices `32..51`). -/
def exC1 : CUDAStream Nat :=
  let s := allocateCUDAStream (0 : Nat) 20 2 "c1"
  { s with sys := fun m => if m < 20 then m else
      if 32 ≤ m ∧ m < 52 then 68 + m else s.sys m }

/-- A small concrete stream used as witness input: `length = 2`,
`subStreams = 2` (stride 16), host storage holding its own flat index. -/
def exW : CUDAStream Nat :=
  let s := allocateCUDAStream (0 : Nat) 2 2 "w"
  { s with sys := fun m => m }

/-- A concrete stream whose element count is not divisible by 2:
`length = 3`, `subStreams = 1` (stride 16), host storage holding its own
flat index. -/
def exC8 : CUDAStream Nat :=
  let s := allocateCUDAStream (0 : Nat) 3 1 "c8"
  { s with sys := fun m => m }

/-! ### Arithmetic helpers -/

theorem u32_eq_of_lt {n : Nat} (h : n < 4294967296) : u32 n = n := Nat.mod_eq_of_lt h

theorem land_mask16 (x : Nat) (hx : x < 4294967296) : x &&& 0xfffffff0 = x / 16 * 16 := by
  have hC : (0xfffffff0 : Nat) = (2 ^ 28 - 1) <<< 4 := by
    rw [Nat.shiftLeft_eq]; norm_num
  have hR : x / 16 * 16 = x >>> 4 <<< 4 := by
    rw [Nat.shiftRight_eq_div_pow, Nat.shiftLeft_eq]
  rw [hC, hR]
  apply Nat.eq_of_testBit_eq
  intro i
  rw [Nat.testBit_land, Nat.testBit_shiftLeft, Nat.testBit_shiftLeft, Nat.testBit_shiftRight,
    Nat.testBit_two_pow_sub_one]
  by_cases h4 : 4 ≤ i
  · have h44 : 4 + (i - 4) = i := by omega
    rw [h44]
    by_cases h32 : i < 32
    · simp [show i ≥ 4 from h4, show i - 4 < 28 by omega]
    · have hxb : x.testBit i = false := Nat.testBit_lt_two_pow (by
        have h2p : (4294967296 : Nat) = 2 ^ 32 := by norm_num
        calc x < 2 ^ 32 := h2p ▸ hx
          _ ≤ 2 ^ i := Nat.pow_le_pow_right (by norm_num) (by omega))
      simp [hxb, show ¬ (i - 4 < 28) by omega]
  · simp [show ¬ (i ≥ 4) from h4]

theorem strideOf_eq {len : Nat} (h : len + 15 < 4294967296) :
    strideOf len = (len + 15) / 16 * 16 := by
  unfold strideOf
  rw [u32_eq_of_lt h, land_mask16 _ h]

theorem wrap_mod {ns c : Nat} (hns : 0 < ns) (h : c % ns + 1 = ns) :
    (c + 1) % ns = 0 ∧ (c + 1) / ns = c / ns + 1 := by
  have hc : ns * (c / ns) + c % ns = c := Nat.div_add_mod c ns
  have h1 : c + 1 = ns * (c / ns + 1) := by rw [Nat.mul_add, Nat.mul_one]; omega
  exact ⟨by rw [h1]; exact Nat.mul_mod_right ns _,
         by rw [h1]; exact Nat.mul_div_cancel_left _ hns⟩

theorem nowrap_mod {ns c : Nat} (hns : 0 < ns) (h : c % ns + 1 ≠ ns) :
    (c + 1) % ns = c % ns + 1 ∧ (c + 1) / ns = c / ns := by
  have hlt : c % ns < ns := Nat.mod_lt _ hns
  have hlt1 : c % ns + 1 < ns := by omega
  have hc : ns * (c / ns) + c % ns = c := Nat.div_add_mod c ns
  have h1 : c + 1 = c % ns + 1 + ns * (c / ns) := by omega
  constructor
  · rw [h1, Nat.add_mul_mod_self_left, Nat.mod_eq_of_lt hlt1]
  · rw [h1, Nat.add_mul_div_left _ _ hns, Nat.div_eq_of_lt hlt1, Nat.zero_add]

theorem mulAdd_decode {nstr q1 r1 q2 r2 : Nat} (h1 : r1 < nstr) (h2 : r2 < nstr)
    (h : q1 * nstr + r1 = q2 * nstr + r2) : q1 = q2 ∧ r1 = r2 := by
  have e1 : (q1 * nstr + r1) / nstr = q1 := by
    rw [Nat.mul_comm q1 nstr, Nat.mul_add_div (by omega), Nat.div_eq_of_lt h1]
    rfl
  have e2 : (q2 * nstr + r2) / nstr = q2 := by
    rw [Nat.mul_comm q2 nstr, Nat.mul_add_div (by omega), Nat.div_eq_of_lt h2]
    rfl
  have hq : q1 = q2 := by rw [← e1, ← e2, h]
  subst hq
  exact ⟨rfl, Nat.add_left_cancel h⟩

/-! ### Characterisation of the phase-1 loop of Collapse -/

theorem seqA_add {A : Type} (ns ss : Nat) (upd : A → Nat → Nat → Nat → Nat → A) :
    ∀ (m n c : Nat) (a : A),
    seqA ns ss upd c (m + n) a = seqA ns ss upd (c + m) n (seqA ns ss upd c m a)
  | 0, n, c, a => by simp [seqA]
  | m + 1, n, c, a => by
    have h1 : m + 1 + n = (m + n) + 1 := by omega
    rw [h1]
    show seqA ns ss upd (c + 1) (m + n) (upd a (c % ns) (c / ns) (c / ss) (c % ss)) = _
    rw [seqA_add ns ss upd m n (c + 1) _]
    have h2 : c + 1 + m = c + (m + 1) := by omega
    rw [h2]
    rfl

theorem seqA_snoc {A : Type} (ns ss : Nat) (upd : A → Nat → Nat → Nat → Nat → A) :
    ∀ (n c : Nat) (a : A),
    seqA ns ss upd c (n + 1) a
      = upd (seqA ns ss upd c n a) ((c + n) % ns) ((c + n) / ns) ((c + n) / ss) ((c + n) % ss)
  | 0, c, a => by simp [seqA]
  | n + 1, c, a => by
    show seqA ns ss upd (c + 1) (n + 1) (upd a (c % ns) (c / ns) (c / ss) (c % ss)) = _
    rw [seqA_snoc ns ss upd n (c + 1) _]
    have h2 : c + 1 + n = c + (n + 1) := by omega
    rw [h2]
    rfl

theorem collapse_step_char {A : Type} (ns ss : Nat) (hns : 0 < ns)
    (upd : A → Nat → Nat → Nat → Nat → A) (i j c : Nat) (a : A) :
    (fun (st : Nat × Nat × A) j =>
        let a2 := upd st.2.2 st.1 st.2.1 i j
        let stream := st.1 + 1
        if stream = ns then ((0 : Nat), st.2.1 + 1, a2) else (stream, st.2.1, a2))
      (c % ns, c / ns, a) j
      = ((c + 1) % ns, (c + 1) / ns, upd a (c % ns) (c / ns) i j) := by
  have hz : (fun (st : Nat × Nat × A) j =>
        let a2 := upd st.2.2 st.1 st.2.1 i j
        let stream := st.1 + 1
        if stream = ns then ((0 : Nat), st.2.1 + 1, a2) else (stream, st.2.1, a2))
      (c % ns, c / ns, a) j
      = if c % ns + 1 = ns then ((0 : Nat), c / ns + 1, upd a (c % ns) (c / ns) i j)
        else (c % ns + 1, c / ns, upd a (c % ns) (c / ns) i j) := rfl
  rw [hz]
  by_cases hw : c % ns + 1 = ns
  · rw [if_pos hw, (wrap_mod hns hw).1, (wrap_mod hns hw).2]
  · rw [if_neg hw, (nowrap_mod hns hw).1, (nowrap_mod hns hw).2]

theorem collapse_inner_char {A : Type} (ns ss : Nat) (hns : 0 < ns)
    (upd : A → Nat → Nat → Nat → Nat → A) (i : Nat) :
    ∀ (jN : Nat), jN ≤ ss → ∀ a : A,
    (List.range jN).foldl (fun (st : Nat × Nat × A) j =>
        let a2 := upd st.2.2 st.1 st.2.1 i j
        let stream := st.1 + 1
        if stream = ns then (0, st.2.1 + 1, a2) else (stream, st.2.1, a2))
      ((i * ss) % ns, (i * ss) / ns, a)
      = ((i * ss + jN) % ns, (i * ss + jN) / ns, seqA ns ss upd (i * ss) jN a) := by
  intro jN
  induction jN with
  | zero =>
    intro _ a
    simp [seqA]
  | succ jN ih =>
    intro hle a
    rw [List.range_succ, List.foldl_append, ih (by omega) a, List.foldl_cons, List.foldl_nil]
    refine (collapse_step_char ns ss hns upd i jN (i * ss + jN)
      (seqA ns ss upd (i * ss) jN a)).trans ?_
    rw [seqA_snoc]
    have hdiv : (i * ss + jN) / ss = i := by
      rw [Nat.mul_comm i ss, Nat.mul_add_div (by omega), Nat.div_eq_of_lt (by omega)]
      rfl
    have hmod : (i * ss + jN) % ss = jN := by
      rw [Nat.mul_comm i ss, Nat.mul_add_mod, Nat.mod_eq_of_lt (by omega)]
    rw [hdiv, hmod]
    rfl

theorem collapse_loop_char {A : Type} (ns ss : Nat) (hns : 0 < ns)
    (upd : A → Nat → Nat → Nat → Nat → A) :
    ∀ (len : Nat) (a0 : A),
    (List.range len).foldl (fun st i =>
        (List.range ss).foldl (fun (st : Nat × Nat × A) j =>
          let a2 := upd st.2.2 st.1 st.2.1 i j
          let stream := st.1 + 1
          if stream = ns then (0, st.2.1 + 1, a2) else (stream, st.2.1, a2)) st)
      ((0 : Nat), (0 : Nat), a0)
      = ((len * ss) % ns, (len * ss) / ns, seqA ns ss upd 0 (len * ss) a0) := by
  intro len
  induction len with
  | zero =>
    intro a0
    simp [seqA]
  | succ len ih =>
    intro a0
    rw [List.range_succ, List.foldl_append, ih a0, List.foldl_cons, List.foldl_nil]
    show (List.range ss).foldl (fun (st : Nat × Nat × A) j =>
        let a2 := upd st.2.2 st.1 st.2.1 len j
        let stream := st.1 + 1
        if stream = ns then (0, st.2.1 + 1, a2) else (stream, st.2.1, a2))
      ((len * ss) % ns, (len * ss) / ns, seqA ns ss upd 0 (len * ss) a0) = _
    rw [collapse_inner_char ns ss hns upd len ss le_rfl (seqA ns ss upd 0 (len * ss) a0)]
    have h1 : (len + 1) * ss = len * ss + ss := by ring
    rw [h1, seqA_add ns ss upd (len * ss) ss 0 a0, Nat.zero_add]

theorem collapsePhase1_char {T : Type} [Inhabited T] (s : CUDAStream T) (ns : Nat)
    (hns : 0 < ns) :
    collapsePhase1 s ns
      = ((s.length * s.subStreams) % ns, (s.length * s.subStreams) / ns,
         seqA ns s.subStreams
           (fun (a : Nat → T) stream pos i j =>
             fun m => if m = stream * newstrideOf s ns + pos then s.sys (s.sysOff j + i) else a m)
           0 (s.length * s.subStreams) (fun _ => (default : T))) :=
  collapse_loop_char ns s.subStreams hns
    (fun (a : Nat → T) stream pos i j =>
      fun m => if m = stream * newstrideOf s ns + pos then s.sys (s.sysOff j + i) else a m)
    s.length (fun _ => (default : T))

theorem collapseTempWrites_eq {T : Type} (s : CUDAStream T) (ns : Nat) (hns : 0 < ns) :
    collapseTempWrites s ns
      = seqA ns s.subStreams
          (fun (a : List Nat) stream pos _i _j => a ++ [stream * newstrideOf s ns + pos])
          0 (s.length * s.subStreams) [] :=
  congrArg (fun p => p.2.2)
    (collapse_loop_char ns s.subStreams hns
      (fun (a : List Nat) stream pos _i _j => a ++ [stream * newstrideOf s ns + pos])
      s.length ([] : List Nat))

theorem seqA_list {ns ss nstr : Nat} :
    ∀ (n c : Nat) (l : List Nat),
    seqA ns ss (fun (a : List Nat) stream pos _i _j => a ++ [stream * nstr + pos]) c n l
      = l ++ (List.range n).map (fun t => ((c + t) % ns) * nstr + (c + t) / ns)
  | 0, c, l => by simp [seqA]
  | n + 1, c, l => by
    show seqA ns ss _ (c + 1) n (l ++ [(c % ns) * nstr + c / ns]) = _
    rw [seqA_list n (c + 1) (l ++ [(c % ns) * nstr + c / ns])]
    have hmap : (List.range n).map (fun t => ((c + 1 + t) % ns) * nstr + (c + 1 + t) / ns)
        = (List.range n).map
            ((fun t => ((c + t) % ns) * nstr + (c + t) / ns) ∘ Nat.succ) := by
      apply List.map_congr_left
      intro t _
      show ((c + 1 + t) % ns) * nstr + (c + 1 + t) / ns
          = ((c + (t + 1)) % ns) * nstr + (c + (t + 1)) / ns
      have he : c + 1 + t = c + (t + 1) := by omega
      rw [he]
    rw [hmap, List.range_succ_eq_map, List.map_cons, List.map_map, List.append_assoc,
      List.singleton_append]
    rfl

theorem collapseTempWrites_char {T : Type} (s : CUDAStream T) (ns : Nat) (hns : 0 < ns) :
    collapseTempWrites s ns
      = (List.range (s.length * s.subStreams)).map
          (fun k => (k % ns) * newstrideOf s ns + k / ns) := by
  rw [collapseTempWrites_eq s ns hns, seqA_list]
  rw [List.nil_append]
  apply List.map_congr_left
  intro t _
  rw [Nat.zero_add]

theorem seqA_temp_read {T : Type} [Inhabited T] (s : CUDAStream T) (ns nstr : Nat)
    (hns : 0 < ns) (d : Nat → T) :
    ∀ (n : Nat), (∀ k, k < n → k / ns < nstr) → ∀ k0, k0 < n →
    seqA ns s.subStreams
      (fun a stream pos i j =>
        fun m => if m = stream * nstr + pos then s.sys (s.sysOff j + i) else a m)
      0 n d ((k0 % ns) * nstr + k0 / ns)
      = s.sys (s.sysOff (k0 % s.subStreams) + k0 / s.subStreams) := by
  intro n
  induction n with
  | zero =>
    intro _ k0 h
    omega
  | succ n ih =>
    intro hbound k0 hk0
    rw [seqA_snoc, Nat.zero_add]
    by_cases hk : k0 = n
    · subst hk
      exact if_pos rfl
    · have hne : (k0 % ns) * nstr + k0 / ns ≠ (n % ns) * nstr + n / ns := by
        intro he
        obtain ⟨hq, hr⟩ := mulAdd_decode (hbound k0 hk0) (hbound n (by omega)) he
        have h1 : ns * (k0 / ns) + k0 % ns = k0 := Nat.div_add_mod k0 ns
        have h2 : ns * (n / ns) + n % ns = n := Nat.div_add_mod n ns
        rw [hq, hr] at h1
        omega
      refine Eq.trans (if_neg hne) ?_
      exact ih (fun k hkn => hbound k (by omega)) k0 (by omega)

/-! ### Projections of Collapse -/

theorem Collapse_length {T : Type} [Inhabited T] (s : CUDAStream T) (ns il : Nat) :
    (s.Collapse ns il).length = newlengthOf s ns := rfl

theorem Collapse_stride {T : Type} [Inhabited T] (s : CUDAStream T) (ns il : Nat) :
    (s.Collapse ns il).stride = newstrideOf s ns := rfl

theorem Collapse_subStreams {T : Type} [Inhabited T] (s : CUDAStream T) (ns il : Nat) :
    (s.Collapse ns il).subStreams = ns := rfl

theorem Collapse_sysOff {T : Type} [Inhabited T] (s : CUDAStream T) (ns il : Nat) :
    (s.Collapse ns il).sysOff
      = fun i => if i < ns then i * newstrideOf s ns else s.sysOff i := rfl

theorem Collapse_devOff {T : Type} [Inhabited T] (s : CUDAStream T) (ns il : Nat) :
    (s.Collapse ns il).devOff
      = fun i => if i < ns then i * newstrideOf s ns else s.devOff i := rfl

theorem Collapse_sys_apply {T : Type} [Inhabited T] (s : CUDAStream T) (ns il : Nat) :
    (s.Collapse ns il).sys =
      (List.range (newlengthOf s ns)).foldl (fun g i =>
        (List.range ns).foldl (fun (g : Nat → T) j =>
          fun m => if m = (if j < ns then j * newstrideOf s ns else s.sysOff j) + i
            then (collapsePhase1 s ns).2.2 (j * newstrideOf s ns + i) else g m) g)
        s.sys := rfl

/-! ### Characterisation of the phase-2 loop of Collapse -/

theorem p2_inner_miss {T : Type} (pT : Nat → T) (nstr i m0 : Nat) :
    ∀ (jl : List Nat) (g : Nat → T), (∀ j ∈ jl, m0 ≠ j * nstr + i) →
    ((jl.foldl (fun (g : Nat → T) j =>
        fun m => if m = j * nstr + i then pT (j * nstr + i) else g m) g) m0 = g m0)
  | [], _, _ => rfl
  | j :: js, g, h => by
    rw [List.foldl_cons]
    rw [p2_inner_miss pT nstr i m0 js _ (fun b hb => h b (List.mem_cons_of_mem _ hb))]
    exact if_neg (h j (List.mem_cons_self _ _))

theorem p2_inner_hit {T : Type} (pT : Nat → T) (nstr i m0 : Nat) :
    ∀ (jl : List Nat) (g : Nat → T) (j0 : Nat), j0 ∈ jl → m0 = j0 * nstr + i →
    ((jl.foldl (fun (g : Nat → T) j =>
        fun m => if m = j * nstr + i then pT (j * nstr + i) else g m) g) m0 = pT m0)
  | [], _, _, hmem, _ => absurd hmem (List.not_mem_nil _)
  | j :: js, g, j0, hmem, hm0 => by
    rw [List.foldl_cons]
    by_cases hj : ∃ jx ∈ js, m0 = jx * nstr + i
    · obtain ⟨jx, hjx, hmx⟩ := hj
      exact p2_inner_hit pT nstr i m0 js _ jx hjx hmx
    · push_neg at hj
      rw [p2_inner_miss pT nstr i m0 js _ hj]
      have hj0 : m0 = j * nstr + i := by
        rcases List.mem_cons.1 hmem with he | hin
        · rw [hm0, he]
        · exact absurd hm0 (hj j0 hin)
      show (if m0 = j * nstr + i then pT (j * nstr + i) else g m0) = pT m0
      rw [if_pos hj0, hj0]

theorem p2_outer_miss {T : Type} (pT : Nat → T) (nstr ns m0 : Nat) :
    ∀ (il : List Nat) (g : Nat → T), (∀ i ∈ il, ∀ j, j < ns → m0 ≠ j * nstr + i) →
    ((il.foldl (fun (g : Nat → T) i =>
        (List.range ns).foldl (fun (g : Nat → T) j =>
          fun m => if m = j * nstr + i then pT (j * nstr + i) else g m) g) g) m0 = g m0)
  | [], _, _ => rfl
  | i :: is, g, h => by
    rw [List.foldl_cons]
    rw [p2_outer_miss pT nstr ns m0 is _ (fun b hb => h b (List.mem_cons_of_mem _ hb))]
    exact p2_inner_miss pT nstr i m0 (List.range ns) g
      (fun j hj => h i (List.mem_cons_self _ _) j (List.mem_range.1 hj))

theorem p2_outer_hit {T : Type} (pT : Nat → T) (nstr ns m0 : Nat) :
    ∀ (il : List Nat) (g : Nat → T) (i0 j0 : Nat), i0 ∈ il → j0 < ns → m0 = j0 * nstr + i0 →
    ((il.foldl (fun (g : Nat → T) i =>
        (List.range ns).foldl (fun (g : Nat → T) j =>
          fun m => if m = j * nstr + i then pT (j * nstr + i) else g m) g) g) m0 = pT m0)
  | [], _, _, _, hmem, _, _ => absurd hmem (List.not_mem_nil _)
  | i :: is, g, i0, j0, hmem, hj0, hm0 => by
    rw [List.foldl_cons]
    by_cases hi : ∃ ix ∈ is, ∃ jx, jx < ns ∧ m0 = jx * nstr + ix
    · obtain ⟨ix, hix, jx, hjx, hmx⟩ := hi
      exact p2_outer_hit pT nstr ns m0 is _ ix jx hix hjx hmx
    · push_neg at hi
      rw [p2_outer_miss pT nstr ns m0 is _ hi]
      have hi0 : i0 = i := by
        rcases List.mem_cons.1 hmem with he | hin
        · exact he
        · exact absurd hm0 (hi i0 hin j0 hj0)
      have hm0i : m0 = j0 * nstr + i := by rw [hm0, hi0]
      exact p2_inner_hit pT nstr i m0 (List.range ns) g j0 (List.mem_range.2 hj0) hm0i

theorem Collapse_sys_simp {T : Type} [Inhabited T] (s : CUDAStream T) (ns il : Nat) :
    (s.Collapse ns il).sys =
      (List.range (newlengthOf s ns)).foldl (fun (g : Nat → T) i =>
        (List.range ns).foldl (fun (g : Nat → T) j =>
          fun m => if m = j * newstrideOf s ns + i
            then (collapsePhase1 s ns).2.2 (j * newstrideOf s ns + i) else g m) g)
        s.sys := by
  rw [Collapse_sys_apply]
  apply List.foldl_ext
  intro g i _
  apply List.foldl_ext
  intro g2 j hj
  rw [if_pos (List.mem_range.1 hj)]

/-- The central readout characterisation of `Collapse`: on a well-formed
stream, with `newstreams` positive and dividing the total element count, the
element read through sub-stream `j` at position `i` after the reshape is the
element that was read through sub-stream `(i*ns+j) % subStreams` at position
`(i*ns+j) / subStreams` before it. -/
theorem collapse_readout {T : Type} [Inhabited T] (s : CUDAStream T) (ns il : Nat)
    (hwf : WF s) (hns : 0 < ns) (hdvd : ns ∣ s.length * s.subStreams)
    (j i : Nat) (hj : j < ns) (hi : i < s.length * s.subStreams / ns) :
    (s.Collapse ns il).sys ((s.Collapse ns il).sysOff j + i)
      = s.sys (s.sysOff ((i * ns + j) % s.subStreams) + (i * ns + j) / s.subStreams) := by
  obtain ⟨hls, hcap⟩ := hwf
  have hLS : s.length * s.subStreams ≤ s.stride * s.subStreams :=
    Nat.mul_le_mul_right _ hls
  have hu32L : u32 (s.length * s.subStreams) = s.length * s.subStreams :=
    u32_eq_of_lt (by omega)
  have hnstr : newstrideOf s ns = s.stride * s.subStreams / ns := by
    unfold newstrideOf
    rw [u32_eq_of_lt hcap]
  have hnlen : newlengthOf s ns = s.length * s.subStreams / ns := by
    unfold newlengthOf
    rw [hu32L]
  have hOffj : (s.Collapse ns il).sysOff j = j * newstrideOf s ns := by
    rw [Collapse_sysOff]
    exact if_pos hj
  rw [hOffj, Collapse_sys_simp,
    p2_outer_hit (collapsePhase1 s ns).2.2 (newstrideOf s ns) ns
      (j * newstrideOf s ns + i) (List.range (newlengthOf s ns)) s.sys i j
      (List.mem_range.2 (by rw [hnlen]; exact hi)) hj rfl,
    collapsePhase1_char s ns hns]
  show seqA ns s.subStreams
      (fun (a : Nat → T) stream pos i j =>
        fun m => if m = stream * newstrideOf s ns + pos then s.sys (s.sysOff j + i) else a m)
      0 (s.length * s.subStreams) (fun _ => (default : T)) (j * newstrideOf s ns + i) = _
  have hmod : (i * ns + j) % ns = j := by
    rw [Nat.mul_comm i ns, Nat.mul_add_mod, Nat.mod_eq_of_lt hj]
  have hdiv : (i * ns + j) / ns = i := by
    rw [Nat.mul_comm i ns, Nat.mul_add_div hns, Nat.div_eq_of_lt hj]
    rfl
  have hidx : j * newstrideOf s ns + i
      = ((i * ns + j) % ns) * newstrideOf s ns + (i * ns + j) / ns := by
    rw [hmod, hdiv]
  rw [hidx]
  have hk0 : i * ns + j < s.length * s.subStreams := by
    have h1 : (i + 1) * ns ≤ s.length * s.subStreams / ns * ns :=
      Nat.mul_le_mul_right _ (by omega)
    have h2 : s.length * s.subStreams / ns * ns = s.length * s.subStreams :=
      Nat.div_mul_cancel hdvd
    have h3 : i * ns + j < (i + 1) * ns := by
      rw [Nat.succ_mul]
      omega
    omega
  exact seqA_temp_read s ns (newstrideOf s ns) hns (fun _ => (default : T))
    (s.length * s.subStreams)
    (fun k hk => by
      rw [hnstr]
      have h1 : k / ns < s.length * s.subStreams / ns :=
        Nat.div_lt_div_of_lt_of_dvd hdvd hk
      have h2 : s.length * s.subStreams / ns ≤ s.stride * s.subStreams / ns :=
        Nat.div_le_div_right hLS
      omega)
    (i * ns + j) hk0

/-! ### Flattening and permutation lemmas for the multiset conservation claim -/

theorem range_flatMap_map {α : Type} (f : Nat → Nat → α) (b : Nat) :
    ∀ a : Nat,
    ((List.range a).flatMap fun j => (List.range b).map fun i => f j i)
      = (List.range (a * b)).map fun k => f (k / b) (k % b) := by
  intro a
  induction a with
  | zero => simp
  | succ a ih =>
    rw [List.range_succ, List.flatMap_append, ih]
    have h1 : (a + 1) * b = a * b + b := by ring
    rw [h1, List.range_add, List.map_append]
    congr 1
    · simp only [List.flatMap_cons, List.flatMap_nil, List.append_nil, List.map_map]
      apply List.map_congr_left
      intro i hi
      have hib : i < b := List.mem_range.1 hi
      show f a i = f ((a * b + i) / b) ((a * b + i) % b)
      have hdiv : (a * b + i) / b = a := by
        rw [Nat.mul_comm a b, Nat.mul_add_div (by omega), Nat.div_eq_of_lt hib]
        rfl
      have hmod : (a * b + i) % b = i := by
        rw [Nat.mul_comm a b, Nat.mul_add_mod, Nat.mod_eq_of_lt hib]
      rw [hdiv, hmod]

theorem multiset_range_map_bij (L : Nat) (f : Nat → Nat)
    (h1 : ∀ k, k < L → f k < L)
    (h2 : ∀ k1 k2, k1 < L → k2 < L → f k1 = f k2 → k1 = k2) :
    Multiset.map f (Multiset.range L) = Multiset.range L := by
  have hnd : (Multiset.map f (Multiset.range L)).Nodup :=
    Multiset.Nodup.map_on
      (fun x hx y hy he => h2 x y (Multiset.mem_range.1 hx) (Multiset.mem_range.1 hy) he)
      (Multiset.nodup_range L)
  have hsub : Multiset.map f (Multiset.range L) ⊆ Multiset.range L := by
    intro m hm
    rcases Multiset.mem_map.1 hm with ⟨k, hk, rfl⟩
    exact Multiset.mem_range.2 (h1 k (Multiset.mem_range.1 hk))
  have hle := (Multiset.le_iff_subset hnd).2 hsub
  refine Multiset.eq_of_le_of_card_le hle ?_
  simp

theorem multiset_range_transpose (aN bN : Nat) :
    Multiset.map (fun k => (k % bN) * aN + k / bN) (Multiset.range (aN * bN))
      = Multiset.range (aN * bN) := by
  apply multiset_range_map_bij
  · intro k hk
    have hb : 0 < bN := by
      rcases Nat.eq_zero_or_pos bN with h | h
      · rw [h, Nat.mul_zero] at hk
        omega
      · exact h
    have hdq : k / bN < aN := (Nat.div_lt_iff_lt_mul hb).2 hk
    have hm : k % bN < bN := Nat.mod_lt _ hb
    calc (k % bN) * aN + k / bN < (k % bN) * aN + aN := by omega
      _ = (k % bN + 1) * aN := by ring
      _ ≤ bN * aN := Nat.mul_le_mul_right _ (by omega)
      _ = aN * bN := Nat.mul_comm _ _
  · intro k1 k2 hk1 hk2 he
    have hb : 0 < bN := by
      rcases Nat.eq_zero_or_pos bN with h | h
      · rw [h, Nat.mul_zero] at hk1
        omega
      · exact h
    have hd1 : k1 / bN < aN := (Nat.div_lt_iff_lt_mul hb).2 hk1
    have hd2 : k2 / bN < aN := (Nat.div_lt_iff_lt_mul hb).2 hk2
    obtain ⟨hq, hr⟩ := mulAdd_decode hd1 hd2 he
    have e1 : bN * (k1 / bN) + k1 % bN = k1 := Nat.div_add_mod k1 bN
    have e2 : bN * (k2 / bN) + k2 % bN = k2 := Nat.div_add_mod k2 bN
    rw [hq, hr] at e1
    omega

/-! ### Claim theorems -/

/-- Claim C2: for every well-formed buffer and every `newSubStreams ≥ 1` such
that `length * subStreams` is evenly divisible by `newSubStreams`, the
multiset of host-resident values read through the sub-stream views before
`Collapse(newSubStreams, interleave)` equals the multiset read through the
`newSubStreams` views over `[0, newLength)` after it: no value is lost or
duplicated. -/
theorem collapse_conserves {T : Type} [Inhabited T] (s : CUDAStream T) (ns il : Nat)
    (hwf : WF s) (hns : 0 < ns) (hdvd : ns ∣ s.length * s.subStreams) :
    (readout (s.Collapse ns il) : Multiset T) = (readout s : Multiset T) := by
  obtain ⟨hls, hcap⟩ := hwf
  have hLS : s.length * s.subStreams ≤ s.stride * s.subStreams :=
    Nat.mul_le_mul_right _ hls
  have hu32L : u32 (s.length * s.subStreams) = s.length * s.subStreams :=
    u32_eq_of_lt (by omega)
  have hnlen : newlengthOf s ns = s.length * s.subStreams / ns := by
    unfold newlengthOf
    rw [hu32L]
  have hL : ns * (s.length * s.subStreams / ns) = s.length * s.subStreams :=
    Nat.mul_div_cancel' hdvd
  have hnew : readout (s.Collapse ns il)
      = (List.range (s.length * s.subStreams)).map
          (fun k => (s.Collapse ns il).sys ((s.Collapse ns il).sysOff
              (k / (s.length * s.subStreams / ns)) + k % (s.length * s.subStreams / ns))) := by
    show (List.range (s.Collapse ns il).subStreams).flatMap (fun j =>
        (List.range (s.Collapse ns il).length).map fun i =>
          (s.Collapse ns il).sys ((s.Collapse ns il).sysOff j + i)) = _
    rw [Collapse_subStreams, Collapse_length, hnlen,
      range_flatMap_map (fun j i => (s.Collapse ns il).sys ((s.Collapse ns il).sysOff j + i))
        (s.length * s.subStreams / ns) ns, hL]
  have hnew2 : (List.range (s.length * s.subStreams)).map
        (fun k => (s.Collapse ns il).sys ((s.Collapse ns il).sysOff
            (k / (s.length * s.subStreams / ns)) + k % (s.length * s.subStreams / ns)))
      = (List.range (s.length * s.subStreams)).map
          (fun k => s.sys (s.sysOff
              (((k % (s.length * s.subStreams / ns)) * ns
                  + k / (s.length * s.subStreams / ns)) % s.subStreams)
            + ((k % (s.length * s.subStreams / ns)) * ns
                  + k / (s.length * s.subStreams / ns)) / s.subStreams)) := by
    apply List.map_congr_left
    intro k hk
    have hkL : k < s.length * s.subStreams := List.mem_range.1 hk
    have hpos : 0 < s.length * s.subStreams / ns := by
      rcases Nat.eq_zero_or_pos (s.length * s.subStreams / ns) with h | h
      · rw [h, Nat.mul_zero] at hL
        omega
      · exact h
    have hjlt : k / (s.length * s.subStreams / ns) < ns :=
      (Nat.div_lt_iff_lt_mul hpos).2 (by omega)
    have hilt : k % (s.length * s.subStreams / ns) < s.length * s.subStreams / ns :=
      Nat.mod_lt _ hpos
    exact collapse_readout s ns il ⟨hls, hcap⟩ hns hdvd _ _ hjlt hilt
  have hold : readout s
      = (List.range (s.subStreams * s.length)).map
          (fun k => s.sys (s.sysOff (k / s.length) + k % s.length)) := by
    show (List.range s.subStreams).flatMap (fun j =>
        (List.range s.length).map fun i => s.sys (s.sysOff j + i)) = _
    rw [range_flatMap_map (fun j i => s.sys (s.sysOff j + i)) s.length s.subStreams]
  have hold2 : (List.range (s.subStreams * s.length)).map
        (fun k => s.sys (s.sysOff (k / s.length) + k % s.length))
      = (List.range (s.subStreams * s.length)).map
          (fun k => s.sys (s.sysOff
              (((k % s.length) * s.subStreams + k / s.length) % s.subStreams)
            + ((k % s.length) * s.subStreams + k / s.length) / s.subStreams)) := by
    apply List.map_congr_left
    intro k hk
    have hkL : k < s.subStreams * s.length := List.mem_range.1 hk
    have hlen : 0 < s.length := by
      rcases Nat.eq_zero_or_pos s.length with h | h
      · rw [h, Nat.mul_zero] at hkL
        omega
      · exact h
    have hdq : k / s.length < s.subStreams := (Nat.div_lt_iff_lt_mul hlen).2 hkL
    have hmod2 : ((k % s.length) * s.subStreams + k / s.length) % s.subStreams
        = k / s.length := by
      rw [Nat.mul_comm, Nat.mul_add_mod, Nat.mod_eq_of_lt hdq]
    have hdiv2 : ((k % s.length) * s.subStreams + k / s.length) / s.subStreams
        = k % s.length := by
      rw [Nat.mul_comm, Nat.mul_add_div (by omega), Nat.div_eq_of_lt hdq]
      rfl
    rw [hmod2, hdiv2]
  have hLL : s.subStreams * s.length = s.length * s.subStreams := Nat.mul_comm _ _
  rw [hnew, hnew2, hold, hold2, hLL]
  have hσperm := multiset_range_transpose ns (s.length * s.subStreams / ns)
  rw [hL] at hσperm
  have hτperm := multiset_range_transpose s.subStreams s.length
  rw [hLL] at hτperm
  have hs1 : (↑((List.range (s.length * s.subStreams)).map
        (fun k => s.sys (s.sysOff
            (((k % (s.length * s.subStreams / ns)) * ns
                + k / (s.length * s.subStreams / ns)) % s.subStreams)
          + ((k % (s.length * s.subStreams / ns)) * ns
                + k / (s.length * s.subStreams / ns)) / s.subStreams))) : Multiset T)
      = Multiset.map (fun K => s.sys (s.sysOff (K % s.subStreams) + K / s.subStreams))
          (Multiset.map
            (fun k => (k % (s.length * s.subStreams / ns)) * ns
                + k / (s.length * s.subStreams / ns))
            (Multiset.range (s.length * s.subStreams))) := by
    rw [Multiset.map_map]
    rfl
  have hs2 : (↑((List.range (s.length * s.subStreams)).map
        (fun k => s.sys (s.sysOff
            (((k % s.length) * s.subStreams + k / s.length) % s.subStreams)
          + ((k % s.length) * s.subStreams + k / s.length) / s.subStreams))) : Multiset T)
      = Multiset.map (fun K => s.sys (s.sysOff (K % s.subStreams) + K / s.subStreams))
          (Multiset.map (fun k => (k % s.length) * s.subStreams + k / s.length)
            (Multiset.range (s.length * s.subStreams))) := by
    rw [Multiset.map_map]
    rfl
  rw [hs1, hs2, hσperm, hτperm]

/-- Claim C3: collapsing a well-formed buffer from its `N = subStreams`
sub-streams to `M` sub-streams and back to `N` (with `M ≥ 1` dividing
`length * N` and the resulting element count divisible by `N` again)
restores every sub-stream's elements at positions `[0, length)` to their
original values in their original order. -/
theorem collapse_roundtrip {T : Type} [Inhabited T] (s : CUDAStream T) (M il1 il2 : Nat)
    (hwf : WF s) (hss : 0 < s.subStreams) (hM : 0 < M)
    (hdvd : M ∣ s.length * s.subStreams)
    (hdvd2 : s.subStreams ∣ s.length * s.subStreams / M * M) :
    ((s.Collapse M il1).Collapse s.subStreams il2).length = s.length ∧
    ((s.Collapse M il1).Collapse s.subStreams il2).subStreams = s.subStreams ∧
    ∀ j i, j < s.subStreams → i < s.length →
      ((s.Collapse M il1).Collapse s.subStreams il2).sys
          (((s.Collapse M il1).Collapse s.subStreams il2).sysOff j + i)
        = s.sys (s.sysOff j + i) := by
  obtain ⟨hls, hcap⟩ := hwf
  have hLS : s.length * s.subStreams ≤ s.stride * s.subStreams :=
    Nat.mul_le_mul_right _ hls
  have hu32L : u32 (s.length * s.subStreams) = s.length * s.subStreams :=
    u32_eq_of_lt (by omega)
  have hu32S : u32 (s.stride * s.subStreams) = s.stride * s.subStreams :=
    u32_eq_of_lt hcap
  have h1len : (s.Collapse M il1).length = s.length * s.subStreams / M := by
    rw [Collapse_length]
    unfold newlengthOf
    rw [hu32L]
  have h1str : (s.Collapse M il1).stride = s.stride * s.subStreams / M := by
    rw [Collapse_stride]
    unfold newstrideOf
    rw [hu32S]
  have h1ss : (s.Collapse M il1).subStreams = M := Collapse_subStreams s M il1
  have hwf1 : WF (s.Collapse M il1) := by
    constructor
    · rw [h1len, h1str]
      exact Nat.div_le_div_right hLS
    · rw [h1str, h1ss]
      calc s.stride * s.subStreams / M * M
          ≤ s.stride * s.subStreams := Nat.div_mul_le_self _ _
        _ < 4294967296 := hcap
  have hL1 : (s.Collapse M il1).length * (s.Collapse M il1).subStreams
      = s.length * s.subStreams := by
    rw [h1len, h1ss]
    exact Nat.div_mul_cancel hdvd
  have hNdvd : s.subStreams
      ∣ (s.Collapse M il1).length * (s.Collapse M il1).subStreams := by
    rw [h1len, h1ss]
    exact hdvd2
  have hlen2 : ((s.Collapse M il1).Collapse s.subStreams il2).length = s.length := by
    rw [Collapse_length]
    unfold newlengthOf
    rw [hL1, hu32L]
    exact Nat.mul_div_cancel _ hss
  refine ⟨hlen2, Collapse_subStreams _ _ _, ?_⟩
  intro j i hj hi
  have hibound : i < (s.Collapse M il1).length * (s.Collapse M il1).subStreams
      / s.subStreams := by
    rw [hL1, show s.length * s.subStreams / s.subStreams = s.length from
      Nat.mul_div_cancel _ hss]
    exact hi
  have hstep2 := collapse_readout (s.Collapse M il1) s.subStreams il2 hwf1 hss hNdvd
    j i hj hibound
  rw [hstep2, h1ss]
  have hK : i * s.subStreams + j < s.length * s.subStreams := by
    have h3 : i * s.subStreams + j < (i + 1) * s.subStreams := by
      rw [Nat.succ_mul]
      omega
    have h4 : (i + 1) * s.subStreams ≤ s.length * s.subStreams :=
      Nat.mul_le_mul_right _ (by omega)
    omega
  have hstep1 := collapse_readout s M il1 ⟨hls, hcap⟩ hM hdvd
    ((i * s.subStreams + j) % M) ((i * s.subStreams + j) / M)
    (Nat.mod_lt _ hM) (Nat.div_lt_div_of_lt_of_dvd hdvd hK)
  rw [hstep1]
  have hK2 : (i * s.subStreams + j) / M * M + (i * s.subStreams + j) % M
      = i * s.subStreams + j := by
    rw [Nat.mul_comm]
    exact Nat.div_add_mod _ M
  rw [hK2]
  have hmodN : (i * s.subStreams + j) % s.subStreams = j := by
    rw [Nat.mul_comm i s.subStreams, Nat.mul_add_mod, Nat.mod_eq_of_lt hj]
  have hdivN : (i * s.subStreams + j) / s.subStreams = i := by
    rw [Nat.mul_comm i s.subStreams, Nat.mul_add_div hss, Nat.div_eq_of_lt hj]
    rfl
  rw [hmodN, hdivN]

/-- Claim C10: when `newSubStreams ≥ 1` divides both `length * subStreams`
and `stride * subStreams` on a well-formed buffer, `Collapse` preserves the
total capacity `stride * subStreams`, and every index it writes in the
scratch buffer and in the host storage lies within `[0, stride * subStreams)`. -/
theorem collapse_capacity_bounds {T : Type} [Inhabited T] (s : CUDAStream T) (ns il : Nat)
    (hwf : WF s) (hns : 0 < ns)
    (hdvdL : ns ∣ s.length * s.subStreams) (hdvdS : ns ∣ s.stride * s.subStreams) :
    (s.Collapse ns il).stride * (s.Collapse ns il).subStreams
        = s.stride * s.subStreams ∧
    (∀ m ∈ collapseTempWrites s ns, m < s.stride * s.subStreams) ∧
    (∀ m ∈ collapseHostWrites s ns, m < s.stride * s.subStreams) := by
  obtain ⟨hls, hcap⟩ := hwf
  have hLS : s.length * s.subStreams ≤ s.stride * s.subStreams :=
    Nat.mul_le_mul_right _ hls
  have hu32S : u32 (s.stride * s.subStreams) = s.stride * s.subStreams :=
    u32_eq_of_lt hcap
  have hu32L : u32 (s.length * s.subStreams) = s.length * s.subStreams :=
    u32_eq_of_lt (by omega)
  have hnstr : newstrideOf s ns = s.stride * s.subStreams / ns := by
    unfold newstrideOf
    rw [hu32S]
  have hSx : s.stride * s.subStreams / ns * ns = s.stride * s.subStreams :=
    Nat.div_mul_cancel hdvdS
  have h2 : s.length * s.subStreams / ns ≤ s.stride * s.subStreams / ns :=
    Nat.div_le_div_right hLS
  refine ⟨?_, ?_, ?_⟩
  · rw [Collapse_stride, Collapse_subStreams, hnstr]
    exact hSx
  · intro m hm
    rw [collapseTempWrites_char s ns hns] at hm
    obtain ⟨k, hk, hkm⟩ := List.mem_map.1 hm
    have hkL : k < s.length * s.subStreams := List.mem_range.1 hk
    have h1 : k / ns < s.length * s.subStreams / ns :=
      Nat.div_lt_div_of_lt_of_dvd hdvdL hkL
    have hmns : k % ns < ns := Nat.mod_lt _ hns
    rw [← hkm, hnstr]
    calc (k % ns) * (s.stride * s.subStreams / ns) + k / ns
        < (k % ns) * (s.stride * s.subStreams / ns) + s.stride * s.subStreams / ns := by
          omega
      _ = (k % ns + 1) * (s.stride * s.subStreams / ns) := by ring
      _ ≤ ns * (s.stride * s.subStreams / ns) := Nat.mul_le_mul_right _ (by omega)
      _ = s.stride * s.subStreams := by
          rw [Nat.mul_comm]
          exact hSx
  · intro m hm
    simp only [collapseHostWrites, List.mem_flatMap, List.mem_map, List.mem_range] at hm
    obtain ⟨i, hi, j, hj, hmEq⟩ := hm
    rw [← hmEq, if_pos hj, hu32S, hu32L] at *
    have hiL : i < s.length * s.subStreams / ns := by
      rw [hu32L] at hi
      exact hi
    calc j * (s.stride * s.subStreams / ns) + i
        < j * (s.stride * s.subStreams / ns) + s.stride * s.subStreams / ns := by omega
      _ = (j + 1) * (s.stride * s.subStreams / ns) := by ring
      _ ≤ ns * (s.stride * s.subStreams / ns) := Nat.mul_le_mul_right _ (by omega)
      _ = s.stride * s.subStreams := by
          rw [Nat.mul_comm]
          exact hSx

set_option maxRecDepth 100000 in
/-- Claim C1: for a buffer with `length = 20`, `subStreams = 2`, sub-stream 0
holding `0..19` and sub-stream 1 holding `100..119`,
`Collapse(newSubStreams = 1, interleave = 1)` yields `stride = 64`,
`length = 40` and a single sub-stream reading, in order,
`0, 100, 1, 101, ..., 19, 119`. -/
theorem collapse_example_c1 :
    (exC1.Collapse 1 1).stride = 64 ∧ (exC1.Collapse 1 1).length = 40 ∧
    (exC1.Collapse 1 1).subStreams = 1 ∧
    readout (exC1.Collapse 1 1)
      = [0, 100, 1, 101, 2, 102, 3, 103, 4, 104, 5, 105, 6, 106, 7, 107, 8, 108, 9, 109,
         10, 110, 11, 111, 12, 112, 13, 113, 14, 114, 15, 115, 16, 116, 17, 117, 18, 118,
         19, 119] := by
  refine ⟨rfl, rfl, rfl, ?_⟩
  rfl

/-- Claim C4 counterexample: with a failing device allocator at
`(length, subStreams) = (20, 2)`, construction terminates the process via
`exit(-1)` and the host allocation remains outstanding — contradicting the
claim that an `AllocationError` is reported to the caller and no host
allocation is retained. -/
theorem construct_devfail_counterexample :
    (constructCUDAStream (0 : Nat) 20 2 "c4" false).processExited ∧
    (constructCUDAStream (0 : Nat) 20 2 "c4" false).hostAllocOutstanding :=
  ⟨trivial, rfl⟩

/-- Claim C4 amended: for every construction request on which the device
allocator reports failure, the code terminates the process with exit code
`-1` (via the RTERROR handler) and the already-completed host allocation is
left outstanding — no error value is returned to the caller. -/
theorem construct_devfail_exits {T : Type} (d : T) (len ss : Nat) (nm : String) :
    constructCUDAStream d len ss nm false = ConstructResult.exited (-1) true := rfl

/-- Claim C5 counterexample: at `length = 4294967281` (with `subStreams = 1`)
the 32-bit computation `(length + 0xf) & 0xfffffff0` wraps, producing
`stride = 0` instead of `ceil(length/16)*16 = 4294967296`. -/
theorem construct_stride_overflow_counterexample :
    (allocateCUDAStream (0 : Nat) 4294967281 1 "c5").stride
      ≠ (4294967281 + 15) / 16 * 16 := by
  intro h
  rw [show (allocateCUDAStream (0 : Nat) 4294967281 1 "c5").stride = 0 from rfl] at h
  omega

/-- Claim C5 amended: whenever the 32-bit computations do not overflow
(`length + 15 < 2^32` and `subStreams * stride < 2^32`), construction yields
`stride = ceil(length/16)*16 = (length + 15)/16*16`, and both the host and the
device storage are allocated with exactly `stride * subStreams` elements. -/
theorem construct_stride_capacity {T : Type} (d : T) (len ss : Nat) (nm : String)
    (h1 : len + 15 < 4294967296)
    (h2 : ss * ((len + 15) / 16 * 16) < 4294967296) :
    (allocateCUDAStream d len ss nm).stride = (len + 15) / 16 * 16 ∧
    (allocateCUDAStream d len ss nm).sysCapacity
      = (allocateCUDAStream d len ss nm).stride * ss ∧
    (allocateCUDAStream d len ss nm).devCapacity
      = (allocateCUDAStream d len ss nm).stride * ss := by
  have hst : strideOf len = (len + 15) / 16 * 16 := strideOf_eq h1
  refine ⟨hst, ?_, ?_⟩
  · show u32 (ss * strideOf len) = strideOf len * ss
    rw [hst, u32_eq_of_lt h2]
    exact Nat.mul_comm _ _
  · show u32 (strideOf len * ss) = strideOf len * ss
    rw [hst]
    rw [u32_eq_of_lt (by rw [Nat.mul_comm]; exact h2)]

/-- Claim C6: the `interleave` parameter of `Collapse` is never consulted by
the body, so any two interleave values produce identical resulting buffer
states. -/
theorem collapse_interleave_inert {T : Type} [Inhabited T] (s : CUDAStream T)
    (ns i1 i2 : Nat) : s.Collapse ns i1 = s.Collapse ns i2 := rfl

/-- Claim C7: after a successful `Upload` followed by a successful `Download`
with the device storage unmodified in between, every host element inside the
transferred `stride * subStreams` extent equals its value before the
`Upload`. -/
theorem upload_download_roundtrip {T : Type} (s : CUDAStream T) (m : Nat)
    (hm : m < u32 (s.stride * s.subStreams)) :
    s.Upload.Download.sys m = s.sys m := by
  show (if m < u32 (s.stride * s.subStreams) then s.Upload.dev m
      else s.Upload.sys m) = s.sys m
  rw [if_pos hm]
  show (if m < u32 (s.stride * s.subStreams) then s.sys m else s.dev m) = s.sys m
  rw [if_pos hm]

/-- Claim C8 counterexample: at `length = 3`, `subStreams = 1`,
`Collapse(2, 1)` returns normally with `newlength = 3*1/2 = 1`, silently
truncating the data (the readout keeps only elements `0` and `1` of `0,1,2`)
instead of reporting a `ShapeMismatchError`. -/
theorem collapse_nondivisible_counterexample :
    (exC8.Collapse 2 1).length = 1 ∧ readout (exC8.Collapse 2 1) = [0, 1] ∧
    (exC8.Collapse 2 1).length * 2 ≠ exC8.length * exC8.subStreams := by
  refine ⟨rfl, rfl, ?_⟩
  decide

/-- Claim C8 amended: `Collapse` performs no divisibility check and reports no
error: for every call it unconditionally sets
`length = (length * subStreams) / newSubStreams` (32-bit flooring division,
truncating when the division is not exact), `subStreams = newSubStreams` and
`stride = (stride * subStreams) / newSubStreams`. -/
theorem collapse_truncates {T : Type} [Inhabited T] (s : CUDAStream T) (ns il : Nat) :
    (s.Collapse ns il).length = u32 (s.length * s.subStreams) / ns ∧
    (s.Collapse ns il).subStreams = ns ∧
    (s.Collapse ns il).stride = u32 (s.stride * s.subStreams) / ns :=
  ⟨rfl, rfl, rfl⟩

/-- Claim C9: after construction, `Upload`, `Download` (assuming the
invariant held before) and `Collapse`, the host sub-stream view `i` sits at
offset `i * stride` from the host base and the device view `i` at
`i * stride` from the device base, for every `i < subStreams`, with `stride`
the buffer's current stride field. -/
theorem views_invariant (T : Type) [Inhabited T] :
    (∀ (d : T) (len ss : Nat) (nm : String), ViewsOK (allocateCUDAStream d len ss nm)) ∧
    (∀ s : CUDAStream T, ViewsOK s → ViewsOK s.Upload) ∧
    (∀ s : CUDAStream T, ViewsOK s → ViewsOK s.Download) ∧
    (∀ (s : CUDAStream T) (ns il : Nat), ViewsOK (s.Collapse ns il)) := by
  refine ⟨?_, ?_, ?_, ?_⟩
  · intro d len ss nm i _
    exact ⟨rfl, rfl⟩
  · intro s h i hi
    exact h i hi
  · intro s h i hi
    exact h i hi
  · intro s ns il i hi
    have hi2 : i < ns := hi
    constructor
    · show (if i < ns then i * newstrideOf s ns else s.sysOff i)
          = i * (s.Collapse ns il).stride
      rw [if_pos hi2]
      rfl
    · show (if i < ns then i * newstrideOf s ns else s.devOff i)
          = i * (s.Collapse ns il).stride
      rw [if_pos hi2]
      rfl

/-- Witness for claim C2: the conservation theorem instantiated at the
concrete stream `exW` (`length = 2`, `subStreams = 2`, values `0,1,16,17`)
collapsed to 4 sub-streams. -/
theorem collapse_conserves_witness :
    WF exW ∧ 0 < 4 ∧ (4 ∣ exW.length * exW.subStreams) ∧
    (readout (exW.Collapse 4 1) : Multiset Nat) = (readout exW : Multiset Nat) :=
  ⟨⟨by decide, by decide⟩, by decide, by decide,
    collapse_conserves exW 4 1 ⟨by decide, by decide⟩ (by decide) (by decide)⟩

/-- Witness for claim C3: the round-trip theorem instantiated at `exW`
collapsed to 4 sub-streams and back to 2, checked at sub-stream 1,
position 1. -/
theorem collapse_roundtrip_witness :
    ((exW.Collapse 4 1).Collapse 2 2).length = exW.length ∧
    ((exW.Collapse 4 1).Collapse 2 2).sys
        (((exW.Collapse 4 1).Collapse 2 2).sysOff 1 + 1)
      = exW.sys (exW.sysOff 1 + 1) := by
  have h := collapse_roundtrip exW 4 1 2 ⟨by decide, by decide⟩ (by decide) (by decide)
    (by decide) (by decide)
  exact ⟨h.1, h.2.2 1 1 (by decide) (by decide)⟩

/-- Witness for claim C5 (amended): the stride and capacity theorem
instantiated at `length = 20`, `subStreams = 2`. -/
theorem construct_stride_capacity_witness :
    20 + 15 < 4294967296 ∧ 2 * ((20 + 15) / 16 * 16) < 4294967296 ∧
    (allocateCUDAStream (0 : Nat) 20 2 "w5").stride = (20 + 15) / 16 * 16 ∧
    (allocateCUDAStream (0 : Nat) 20 2 "w5").sysCapacity
      = (allocateCUDAStream (0 : Nat) 20 2 "w5").stride * 2 ∧
    (allocateCUDAStream (0 : Nat) 20 2 "w5").devCapacity
      = (allocateCUDAStream (0 : Nat) 20 2 "w5").stride * 2 := by
  have h := construct_stride_capacity (0 : Nat) 20 2 "w5" (by decide) (by decide)
  exact ⟨by decide, by decide, h.1, h.2.1, h.2.2⟩

/-- Witness for claim C7: the upload/download round trip instantiated at
`exW` and host index 0. -/
theorem upload_download_roundtrip_witness :
    0 < u32 (exW.stride * exW.subStreams) ∧
    exW.Upload.Download.sys 0 = exW.sys 0 :=
  ⟨by decide, upload_download_roundtrip exW 0 (by decide)⟩

/-- Witness for claim C9: the view invariant instantiated after construction
(`length = 20`, `subStreams = 2`, view 1), after `Upload` and `Download` on
`exW` (view 1), and after `Collapse` of `exW` to 4 sub-streams (view 2). -/
theorem views_invariant_witness :
    (allocateCUDAStream (0 : Nat) 20 2 "w9").sysOff 1
        = 1 * (allocateCUDAStream (0 : Nat) 20 2 "w9").stride ∧
    exW.Upload.sysOff 1 = 1 * exW.Upload.stride ∧
    exW.Download.devOff 1 = 1 * exW.Download.stride ∧
    (exW.Collapse 4 1).devOff 2 = 2 * (exW.Collapse 4 1).stride := by
  have h := views_invariant Nat
  refine ⟨(h.1 0 20 2 "w9" 1 (by decide)).1, ?_, ?_, ?_⟩
  · exact (h.2.1 exW (fun i hi => ⟨rfl, rfl⟩) 1 (by decide)).1
  · exact (h.2.2.1 exW (fun i hi => ⟨rfl, rfl⟩) 1 (by decide)).2
  · exact (h.2.2.2 exW 4 1 2 (by decide)).2

/-- Witness for claim C10: the capacity and bounds theorem instantiated at
`exW` collapsed to 4 sub-streams, with the scratch write index 8. -/
theorem collapse_capacity_bounds_witness :
    WF exW ∧ 0 < 4 ∧ (4 ∣ exW.length * exW.subStreams) ∧
    (4 ∣ exW.stride * exW.subStreams) ∧
    (exW.Collapse 4 1).stride * (exW.Collapse 4 1).subStreams
        = exW.stride * exW.subStreams ∧
    8 < exW.stride * exW.subStreams := by
  have h := collapse_capacity_bounds exW 4 1 ⟨by decide, by decide⟩ (by decide)
    (by decide) (by decide)
  exact ⟨⟨by decide, by decide⟩, by decide, by decide, by decide, h.1,
    h.2.1 8 (by decide)⟩
